import Mathlib

/-!
Verification of the Flowmancer schema designer core: the entity/attribute
graph model with derived foreign-key relationships (App.tsx handlers and
apiService.ts), the pointer-drag controller (useEntityDrag), the attribute
editor (AttributeEditorModal.tsx) and the save/load hydration paths.
The definitions below are shallow embeddings of the TypeScript source;
JavaScript truthiness of strings and numbers (empty string and zero are
falsy) is modelled explicitly where the source relies on it.
-/

namespace Flowmancer

/-- `foreignKeyRelation` payload from frontend/src/types.ts. -/
structure FKRelation where
  referencesEntity : String
  referencesField : String
deriving DecidableEq

/-- Attribute record from frontend/src/types.ts.  `foreignKeyRelation` is an
optional field, present when the attribute references another entity. -/
structure Attribute where
  id : String
  name : String
  type : String
  isPrimaryKey : Bool
  isNotNull : Bool
  isUnique : Bool
  isForeignKey : Bool
  foreignKeyRelation : Option FKRelation
deriving DecidableEq

/-- Canvas position, the `ui` field of an entity. -/
structure UIPos where
  x : Int
  y : Int
deriving DecidableEq

/-- Entity record from frontend/src/types.ts (the optional frontend-component
fields are irrelevant to the schema model). -/
structure Entity where
  id : String
  name : String
  attributes : List Attribute
  ui : UIPos
deriving DecidableEq

/-- Derived relationship record from frontend/src/types.ts. -/
structure Relationship where
  from_entity : String
  to_entity : String
  type : String
  foreign_key_in_to_entity : String
deriving DecidableEq

/-- The duplicate test used by `deriveRelationshipsFromFks` before pushing a
new relationship (apiService.ts, the `relExists` predicate). -/
def sameTriple (r : Relationship) (fromE toE fkName : String) : Bool :=
  r.from_entity == fromE && r.to_entity == toE && r.foreign_key_in_to_entity == fkName

/-- One iteration of the inner `forEach` of `deriveRelationshipsFromFks`:
an attribute contributes a relationship when it is a foreign key with a
truthy (non-empty) `referencesEntity`, and no relationship with the same
`(from_entity, to_entity, foreign_key_in_to_entity)` triple was pushed yet. -/
def deriveStep (entityName : String) (rels : List Relationship) (attr : Attribute) :
    List Relationship :=
  match attr.foreignKeyRelation with
  | some fkr =>
    if attr.isForeignKey && fkr.referencesEntity != "" then
      if rels.any (fun r => sameTriple r fkr.referencesEntity entityName attr.name) then rels
      else rels ++ [{ from_entity := fkr.referencesEntity, to_entity := entityName,
                       type := "1:N", foreign_key_in_to_entity := attr.name }]
    else rels
  | none => rels

/-- The inner `entity.attributes.forEach` loop of `deriveRelationshipsFromFks`. -/
def deriveAttrs (entityName : String) : List Relationship → List Attribute → List Relationship
  | rels, [] => rels
  | rels, a :: rest => deriveAttrs entityName (deriveStep entityName rels a) rest

/-- The outer `entities.forEach` loop of `deriveRelationshipsFromFks`. -/
def deriveEntities : List Relationship → List Entity → List Relationship
  | rels, [] => rels
  | rels, e :: rest => deriveEntities (deriveAttrs e.name rels e.attributes) rest

/-- `deriveRelationshipsFromFks` from frontend/src/services/apiService.ts. -/
def deriveRelationshipsFromFks (entities : List Entity) : List Relationship :=
  deriveEntities [] entities

/-- Two relationships differ in their identifying triple. -/
def tripleNe (r1 r2 : Relationship) : Prop :=
  ¬(r1.from_entity = r2.from_entity ∧ r1.to_entity = r2.to_entity ∧
    r1.foreign_key_in_to_entity = r2.foreign_key_in_to_entity)

/-- JavaScript `String.prototype.toLowerCase`, modelled character-wise
(`String.toLower` in the library is the same map over the characters; this
definition keeps it kernel-computable). -/
def toLowerCase (s : String) : String :=
  String.mk (s.data.map Char.toLower)

/-- JavaScript `String.prototype.trim`, modelled character-wise: strips
leading and trailing whitespace (`String.trim` in the library is the same
operation; this definition keeps it kernel-computable). -/
def jsTrim (s : String) : String :=
  String.mk (((s.data.dropWhile Char.isWhitespace).reverse.dropWhile
    Char.isWhitespace).reverse)

/-- JavaScript `a || b` for an optional string: the empty string is falsy. -/
def jsOrString (o : Option String) (dflt : String) : String :=
  match o with
  | some s => if s = "" then dflt else s
  | none => dflt

/-- JavaScript `a || b` for an optional integer: zero is falsy. -/
def jsOrInt (o : Option Int) (dflt : Int) : Int :=
  match o with
  | some v => if v = 0 then dflt else v
  | none => dflt

/-- The App-level state relevant to the schema model: the entity array and
the monotone creation counter. -/
structure AppState where
  entities : List Entity
  entityCounter : Nat
deriving DecidableEq

/-- `handleAddEntity` from App.tsx: bumps the counter, generates the name
`NewEntity<counter>`, no attributes, and a grid-cascading position.  The id
is `entity-` followed by `Date.now()`; the timestamp-based id is passed in
as `newId` since it is an environment input. -/
def handleAddEntity (s : AppState) (newId : String) : AppState :=
  let nextCounter := s.entityCounter + 1
  let newEntity : Entity :=
    { id := newId
      name := "NewEntity" ++ toString nextCounter
      attributes := []
      ui := { x := 50 + ((s.entities.length % 8 : Int) * 60)
              y := 50 + ((s.entities.length / 8 : Int) * 60) } }
  { entities := s.entities ++ [newEntity], entityCounter := nextCounter }

/-- The per-attribute rewrite of the second `setEntities` call in
`handleUpdateEntityName`: a foreign-key attribute whose
`foreignKeyRelation?.referencesEntity` equals the old name has its
`referencesEntity` replaced by the trimmed new name. -/
def renameFkAttr (oldName trimmedName : String) (attr : Attribute) : Attribute :=
  if attr.isForeignKey &&
      (attr.foreignKeyRelation.map (fun f => f.referencesEntity) == some oldName) then
    { attr with foreignKeyRelation :=
        attr.foreignKeyRelation.map (fun f => { f with referencesEntity := trimmedName }) }
  else attr

/-- The mutation part of `handleUpdateEntityName`: the composition of its two
`setEntities` calls.  The first renames the entity with the given id; the
second runs only when `oldName` is truthy (found and non-empty) and rewrites
dependent foreign keys in all entities. -/
def applyRename (entities : List Entity) (entityId trimmedName : String) : List Entity :=
  let oldNameOpt := (entities.find? (fun e => e.id == entityId)).map (fun e => e.name)
  let renamed := entities.map (fun e =>
    if e.id == entityId then { e with name := trimmedName } else e)
  match oldNameOpt with
  | some oldName =>
    if oldName = "" then renamed
    else renamed.map (fun e =>
      { e with attributes := e.attributes.map (renameFkAttr oldName trimmedName) })
  | none => renamed

/-- `handleUpdateEntityName` from App.tsx (current revision): trims the name,
rejects names longer than 50 characters and case-insensitive collisions with
a different entity, then applies the rename and the FK cascade.  The
source's empty-name check `!trimmedName && trimmedName.length === -1` is
reproduced verbatim; a string length is never -1, so that branch is
unreachable and the paired error is never raised. -/
def handleUpdateEntityName (entities : List Entity) (entityId newName : String) :
    Except String (List Entity) :=
  let trimmedName := jsTrim newName
  if trimmedName.length > 50 then
    Except.error "Entity name cannot exceed 50 characters."
  else if trimmedName = "" ∧ (trimmedName.length : Int) = -1 then
    Except.error "Entity name cannot be empty."
  else if entities.any (fun e => toLowerCase e.name == toLowerCase trimmedName && e.id != entityId) then
    Except.error ("Entity name \"" ++ trimmedName ++ "\" already exists.")
  else
    Except.ok (applyRename entities entityId trimmedName)

/-- `handleDeleteEntity` from App.tsx: no-op when the id is unknown;
otherwise removes the entity and strips, from every remaining entity, the
attributes that are foreign keys pointing at the deleted entity's name. -/
def handleDeleteEntity (entities : List Entity) (entityId : String) : List Entity :=
  match entities.find? (fun e => e.id == entityId) with
  | none => entities
  | some entityToDelete =>
    (entities.filter (fun e => e.id != entityId)).map (fun entity =>
      { entity with attributes := entity.attributes.filter (fun attr =>
          !(attr.isForeignKey &&
            (attr.foreignKeyRelation.map (fun f => f.referencesEntity)
              == some entityToDelete.name))) })

/-- `handleSaveAttribute` from App.tsx: upsert by attribute id into the
selected entity (replace in place when the id exists, else append). -/
def handleSaveAttribute (entities : List Entity) (selectedEntityId : String)
    (attributeData : Attribute) : List Entity :=
  entities.map (fun entity =>
    if entity.id == selectedEntityId then
      match entity.attributes.findIdx? (fun a => a.id == attributeData.id) with
      | some i => { entity with attributes := entity.attributes.set i attributeData }
      | none => { entity with attributes := entity.attributes ++ [attributeData] }
    else entity)

/-- `handleDeleteAttribute` from App.tsx: drops the attribute with the given
id from the given entity. -/
def handleDeleteAttribute (entities : List Entity) (entityId attributeId : String) :
    List Entity :=
  entities.map (fun entity =>
    if entity.id == entityId then
      { entity with attributes := entity.attributes.filter (fun attr => attr.id != attributeId) }
    else entity)

/-- Lower-cased display names of the entity list. -/
def lowerNames (es : List Entity) : List String :=
  es.map (fun e => toLowerCase e.name)

/-- The spec's name-uniqueness invariant: entity names are pairwise
case-insensitively distinct. -/
def namesCIDistinct (es : List Entity) : Prop :=
  (lowerNames es).Pairwise (fun a b => a ≠ b)

instance (es : List Entity) : Decidable (namesCIDistinct es) :=
  List.instDecidablePairwise _

/-- The drag payload captured at press time by `useEntityDrag`. -/
structure DraggedEntity where
  id : String
  offsetX : Int
  offsetY : Int
deriving DecidableEq

/-- The state of the `useEntityDrag` hook: the dragged entity (with the
pointer offset captured at press) and the touch-gesture start point. -/
structure DragState where
  draggedEntity : Option DraggedEntity
  touchStart : Option UIPos
deriving DecidableEq

/-- The hook's initial state: nothing dragged, no touch recorded. -/
def dragInit : DragState := { draggedEntity := none, touchStart := none }

/-- `handleDragStart` (mouse) from useEntityDrag.ts: captures the offset
from the pointer to the entity's top-left corner. -/
def handleDragStart (d : DragState) (clientX clientY : Int) (entity : Entity) : DragState :=
  { d with draggedEntity := some ({ id := entity.id,
                                    offsetX := clientX - entity.ui.x,
                                    offsetY := clientY - entity.ui.y }) }

/-- `handleTouchStart` from useEntityDrag.ts: like `handleDragStart`, and
additionally records the press point for swipe detection. -/
def handleTouchStart (d : DragState) (clientX clientY : Int) (entity : Entity) : DragState :=
  { d with
    draggedEntity := some ({ id := entity.id,
                             offsetX := clientX - entity.ui.x,
                             offsetY := clientY - entity.ui.y }),
    touchStart := some ({ x := clientX, y := clientY }) }

/-- `handleDragMove` from useEntityDrag.ts: when a drag is active, moves the
dragged entity to `pointer - offset`; otherwise does nothing. -/
def handleDragMove (d : DragState) (clientX clientY : Int) (entities : List Entity) :
    List Entity :=
  match d.draggedEntity with
  | none => entities
  | some ds =>
    entities.map (fun entity =>
      if entity.id == ds.id then
        { entity with ui := { x := clientX - ds.offsetX, y := clientY - ds.offsetY } }
      else entity)

/-- A mouse-move event as a whole hook step: `handleDragMove` only calls
`setEntities`, never `setDraggedEntity` or `setTouchStart`, so the drag
state component is passed through unchanged. -/
def mouseMoveStep (d : DragState) (clientX clientY : Int) (entities : List Entity) :
    DragState × List Entity :=
  (d, handleDragMove d clientX clientY entities)

/-- `handleDragEnd` from useEntityDrag.ts: clears the drag and touch state. -/
def handleDragEnd (_d : DragState) : DragState :=
  { draggedEntity := none, touchStart := none }

/-- Swipe classification outcomes of `handleTouchEnd`. -/
inductive Swipe
  | right
  | left
  | down
  | up
  | noSwipe
deriving DecidableEq

/-- The swipe classification of `handleTouchEnd` in useEntityDrag.ts
(threshold 50): nothing is classified without a recorded press point; the
branch is chosen by which axis has the larger absolute displacement, and
within it the signed displacement must exceed the threshold. -/
def classifySwipe (touchStart : Option UIPos) (clientX clientY : Int) : Swipe :=
  match touchStart with
  | none => Swipe.noSwipe
  | some ts =>
    let deltaX := clientX - ts.x
    let deltaY := clientY - ts.y
    let threshold : Int := 50
    if deltaX.natAbs > deltaY.natAbs then
      if deltaX > threshold then Swipe.right
      else if deltaX < -threshold then Swipe.left
      else Swipe.noSwipe
    else
      if deltaY > threshold then Swipe.down
      else if deltaY < -threshold then Swipe.up
      else Swipe.noSwipe

/-- `handleTouchEnd` from useEntityDrag.ts: classifies the swipe from the
recorded press point and finishes the drag via `handleDragEnd`; without a
press point it returns early, leaving the state unchanged. -/
def handleTouchEnd (d : DragState) (clientX clientY : Int) : Swipe × DragState :=
  match d.touchStart with
  | none => (Swipe.noSwipe, d)
  | some ts => (classifySwipe (some ts) clientX clientY, handleDragEnd d)

/-- The form fields registered in AttributeEditorModal.tsx. -/
structure AttrForm where
  name : String
  type : String
  isPrimaryKey : Bool
  isNotNull : Bool
  isUnique : Bool
  isForeignKey : Bool
  referencesEntity : Option String
  referencesField : Option String
deriving DecidableEq

/-- `defaultAttributeState` from AttributeEditorModal.tsx. -/
def defaultAttributeState : AttrForm :=
  { name := ""
    type := "String"
    isPrimaryKey := false
    isNotNull := false
    isUnique := false
    isForeignKey := false
    referencesEntity := none
    referencesField := none }

/-- The modal's `useEffect` population of the form: when editing, the fields
of the existing attribute (with the FK reference parts flattened); when
adding, the defaults. -/
def initForm : Option Attribute → AttrForm
  | some a =>
    { name := a.name
      type := a.type
      isPrimaryKey := a.isPrimaryKey
      isNotNull := a.isNotNull
      isUnique := a.isUnique
      isForeignKey := a.isForeignKey
      referencesEntity := a.foreignKeyRelation.map (fun f => f.referencesEntity)
      referencesField := a.foreignKeyRelation.map (fun f => f.referencesField) }
  | none => defaultAttributeState

/-- A user interaction with the modal's form controls. -/
inductive FormEvent
  | setName (v : String)
  | setType (v : String)
  | setPrimaryKey (b : Bool)
  | setNotNull (b : Bool)
  | setUnique (b : Bool)
  | setForeignKey (b : Bool)
  | setReferencesEntity (v : Option String)
  | setReferencesField (v : Option String)
deriving DecidableEq

/-- Effect of one form interaction.  Checking Primary Key fires `onPkChange`,
which also sets `isNotNull` to true; the Not-Null checkbox is rendered with
`disabled={form.getFieldValue('isPrimaryKey')}`, so toggling it while PK is
checked has no effect; selecting a referenced entity resets the referenced
field to undefined. -/
def applyFormEvent (f : AttrForm) : FormEvent → AttrForm
  | FormEvent.setName v => { f with name := v }
  | FormEvent.setType v => { f with type := v }
  | FormEvent.setPrimaryKey b =>
      if b then { f with isPrimaryKey := true, isNotNull := true }
      else { f with isPrimaryKey := false }
  | FormEvent.setNotNull b => if f.isPrimaryKey then f else { f with isNotNull := b }
  | FormEvent.setUnique b => { f with isUnique := b }
  | FormEvent.setForeignKey b => { f with isForeignKey := b }
  | FormEvent.setReferencesEntity v => { f with referencesEntity := v, referencesField := none }
  | FormEvent.setReferencesField v => { f with referencesField := v }

/-- An editing session: the form state after a sequence of interactions. -/
def runForm (f : AttrForm) (events : List FormEvent) : AttrForm :=
  events.foldl applyFormEvent f

namespace AttributeEditorModal

/-- `handleSave` from AttributeEditorModal.tsx: builds the `Attribute` from
the validated form values; the id is the edited attribute's id or a fresh
`attr-<Date.now()>` one (the timestamp id is passed in as `freshId`); the
FK reference pair is included only when `isForeignKey` is set.  The form
validator requires the reference fields when the FK section is shown, so a
missing value is modelled as the empty string. -/
def handleSave (attributeToEdit : Option Attribute) (freshId : String) (f : AttrForm) :
    Attribute :=
  { id := match attributeToEdit with
          | some a => if a.id = "" then freshId else a.id
          | none => freshId
    name := f.name
    type := f.type
    isPrimaryKey := f.isPrimaryKey
    isNotNull := f.isNotNull
    isUnique := f.isUnique
    isForeignKey := f.isForeignKey
    foreignKeyRelation :=
      if f.isForeignKey then
        some ({ referencesEntity := f.referencesEntity.getD "",
                referencesField := f.referencesField.getD "" })
      else none }

end AttributeEditorModal

/-- A raw entity as read from a legacy `db_schema_design.json` file
(frontend/js/app.js): every field except the name may be absent. -/
structure RawEntityJS where
  id : Option String
  name : String
  attributes : Option (List Attribute)
  x : Option Int
  y : Option Int
deriving DecidableEq

/-- A raw legacy design document: entity list plus optional counter. -/
structure RawDesignJS where
  entities : List RawEntityJS
  entityCounter : Option Int
deriving DecidableEq

/-- The in-memory entity of the legacy vanilla app (flat x/y coordinates). -/
structure LegacyEntity where
  id : String
  name : String
  attributes : List Attribute
  x : Int
  y : Int
deriving DecidableEq

/-- Hydration of one entity inside `loadSchemaFromFile` (frontend/js/app.js):
`id: entityData.id || entity-<Date.now()>-<++entityCounter>` (pre-increment,
so a missing or empty id bumps the counter), `attributes || []`,
`x: entityData.x || 50`, `y: entityData.y || 50`. -/
def hydrateLegacyEntity (now : String) (c : Int) (ed : RawEntityJS) : Int × LegacyEntity :=
  let fallbackId := "entity-" ++ now ++ "-" ++ toString (c + 1)
  let body := fun (idv : String) =>
    { id := idv
      name := ed.name
      attributes := ed.attributes.getD []
      x := jsOrInt ed.x 50
      y := jsOrInt ed.y 50 : LegacyEntity }
  match ed.id with
  | some i => if i = "" then (c + 1, body fallbackId) else (c, body i)
  | none => (c + 1, body fallbackId)

/-- The `designData.entities.forEach` loop of `loadSchemaFromFile`, threading
the counter (which only changes when an id is missing). -/
def loadLoopJS (now : String) : Int → List RawEntityJS → Int × List LegacyEntity
  | c, [] => (c, [])
  | c, ed :: rest =>
    let step := hydrateLegacyEntity now c ed
    let restRes := loadLoopJS now step.1 rest
    (restRes.1, step.2 :: restRes.2)

/-- `loadSchemaFromFile` from frontend/js/app.js, after the document passed
the `designData && designData.entities` acceptance check: the counter is
reset to `designData.entityCounter || 0`, then every entity is hydrated. -/
def loadSchemaFromFile (d : RawDesignJS) (now : String) : Int × List LegacyEntity :=
  loadLoopJS now (jsOrInt d.entityCounter 0) d.entities

/-- The `designData` payload of a `.flowmancer` file as the current
`handleLoadDesign` reads it: both fields may be absent at runtime. -/
structure RawDesignData where
  entities : Option (List Entity)
  entityCounter : Option Int
deriving DecidableEq

/-- `handleLoadDesign` of the pre-flowmancer React App.tsx, after the
`Array.isArray(designData.entities)` acceptance check: entities are set as
parsed (no position fix-up) and the counter falls back to
`designData.entityCounter || designData.entities.length`. -/
def handleLoadDesignLegacyReact (entities : List Entity) (entityCounter : Option Int) :
    List Entity × Int :=
  (entities, jsOrInt entityCounter entities.length)

/-- `handleLoadDesign` of the current App.tsx (`.flowmancer` path): entities
are set as `parsed.designData.entities || []` (no position fix-up) and the
counter falls back to `parsed.designData.entityCounter || 0`. -/
def handleLoadDesign (designData : RawDesignData) : List Entity × Int :=
  (designData.entities.getD [], jsOrInt designData.entityCounter 0)

/-! Concrete fixtures used by the closed example theorems below. -/

/-- An entity named Orders with no attributes. -/
def entOrders : Entity := { id := "e1", name := "Orders", attributes := [], ui := { x := 0, y := 0 } }

/-- A stale reference: NOT flagged as a foreign key, but still carrying a
`foreignKeyRelation` pointing at Orders. -/
def attrStaleOrders : Attribute :=
  { id := "a1", name := "order_ref", type := "Integer", isPrimaryKey := false,
    isNotNull := false, isUnique := false, isForeignKey := false,
    foreignKeyRelation := some ({ referencesEntity := "Orders", referencesField := "id" }) }

/-- A genuine foreign key pointing at Orders. -/
def attrFkOrders : Attribute :=
  { id := "a2", name := "order_id", type := "Integer", isPrimaryKey := false,
    isNotNull := false, isUnique := false, isForeignKey := true,
    foreignKeyRelation := some ({ referencesEntity := "Orders", referencesField := "id" }) }

/-- Customers entity holding the stale (non-FK) reference to Orders. -/
def entCustomersStale : Entity :=
  { id := "e2", name := "Customers", attributes := [attrStaleOrders], ui := { x := 0, y := 0 } }

/-- Customers entity holding a genuine foreign key to Orders. -/
def entCustomersFk : Entity :=
  { id := "e3", name := "Customers", attributes := [attrFkOrders], ui := { x := 0, y := 0 } }

/-- A Customer entity (deletion target of the C2 examples). -/
def entCustomer : Entity := { id := "c1", name := "Customer", attributes := [], ui := { x := 0, y := 0 } }

/-- An Order entity holding the stale (non-FK) reference to Customer. -/
def attrStaleCustomer : Attribute :=
  { id := "a3", name := "customer_ref", type := "Integer", isPrimaryKey := false,
    isNotNull := false, isUnique := false, isForeignKey := false,
    foreignKeyRelation := some ({ referencesEntity := "Customer", referencesField := "id" }) }

/-- A genuine foreign key pointing at Customer. -/
def attrFkCustomer : Attribute :=
  { id := "a4", name := "customer_id", type := "Integer", isPrimaryKey := false,
    isNotNull := false, isUnique := false, isForeignKey := true,
    foreignKeyRelation := some ({ referencesEntity := "Customer", referencesField := "id" }) }

/-- Order entity with the stale reference. -/
def entOrderStale : Entity :=
  { id := "o1", name := "Order", attributes := [attrStaleCustomer], ui := { x := 0, y := 0 } }

/-- Order entity with the genuine foreign key. -/
def entOrderFk : Entity :=
  { id := "o2", name := "Order", attributes := [attrFkCustomer], ui := { x := 0, y := 0 } }

/-- A state whose single entity is already named like the next generated
name `NewEntity2`. -/
def clashState : AppState :=
  { entities := [{ id := "a", name := "NewEntity2", attributes := [], ui := { x := 50, y := 50 } }],
    entityCounter := 1 }

/-- An attribute violating the PK-implies-NN invariant, as a loaded design
file may contain it. -/
def pkNnViolating : Attribute :=
  { id := "a9", name := "id", type := "Integer", isPrimaryKey := true,
    isNotNull := false, isUnique := false, isForeignKey := false,
    foreignKeyRelation := none }

/-- An entity sitting at canvas position (50, 50). -/
def entAt5050 : Entity := { id := "d1", name := "Widget", attributes := [], ui := { x := 50, y := 50 } }

/-- A raw legacy document with two entities (ids present, positions and
counter absent). -/
def rawDocNoCounter : RawDesignJS :=
  { entities := [
      { id := some "c1", name := "Customer", attributes := none, x := none, y := none },
      { id := some "o1", name := "Order", attributes := none, x := none, y := none }],
    entityCounter := none }

lemma mem_deriveStep {n : String} {a : Attribute} {rels : List Relationship}
    {r : Relationship} (h : r ∈ deriveStep n rels a) :
    r ∈ rels ∨ ∃ fkr, a.foreignKeyRelation = some fkr ∧ a.isForeignKey = true ∧
      fkr.referencesEntity ≠ "" ∧
      r = { from_entity := fkr.referencesEntity, to_entity := n,
            type := "1:N", foreign_key_in_to_entity := a.name } := by
  unfold deriveStep at h
  split at h
  · rename_i fkr heq
    split at h
    · rename_i hg
      split at h
      · exact Or.inl h
      · rcases List.mem_append.mp h with h1 | h1
        · exact Or.inl h1
        · right
          have hg2 : a.isForeignKey = true ∧ (fkr.referencesEntity != "") = true := by
            simpa using hg
          refine ⟨fkr, heq, hg2.1, ?_, List.eq_of_mem_singleton h1⟩
          simpa using hg2.2
    · exact Or.inl h
  · exact Or.inl h

lemma mem_deriveAttrs {n : String} {attrs : List Attribute} :
    ∀ {rels : List Relationship} {r : Relationship}, r ∈ deriveAttrs n rels attrs →
      r ∈ rels ∨ ∃ a ∈ attrs, ∃ fkr, a.foreignKeyRelation = some fkr ∧
        a.isForeignKey = true ∧ fkr.referencesEntity ≠ "" ∧
        r = { from_entity := fkr.referencesEntity, to_entity := n,
              type := "1:N", foreign_key_in_to_entity := a.name } := by
  induction attrs with
  | nil => intro rels r h; exact Or.inl h
  | cons a rest ih =>
    intro rels r h
    rcases ih h with h1 | ⟨a2, ha2, hrest⟩
    · rcases mem_deriveStep h1 with h2 | ⟨fkr, hx⟩
      · exact Or.inl h2
      · exact Or.inr ⟨a, List.mem_cons_self a rest, fkr, hx⟩
    · exact Or.inr ⟨a2, List.mem_cons_of_mem a ha2, hrest⟩

lemma mem_deriveEntities {es : List Entity} :
    ∀ {rels : List Relationship} {r : Relationship}, r ∈ deriveEntities rels es →
      r ∈ rels ∨ ∃ e ∈ es, ∃ a ∈ e.attributes, ∃ fkr, a.foreignKeyRelation = some fkr ∧
        a.isForeignKey = true ∧ fkr.referencesEntity ≠ "" ∧
        r = { from_entity := fkr.referencesEntity, to_entity := e.name,
              type := "1:N", foreign_key_in_to_entity := a.name } := by
  induction es with
  | nil => intro rels r h; exact Or.inl h
  | cons e rest ih =>
    intro rels r h
    rcases ih h with h1 | ⟨e2, he2, hrest⟩
    · rcases mem_deriveAttrs h1 with h2 | ⟨a, ha, hx⟩
      · exact Or.inl h2
      · exact Or.inr ⟨e, List.mem_cons_self e rest, a, ha, hx⟩
    · exact Or.inr ⟨e2, List.mem_cons_of_mem e he2, hrest⟩

lemma mem_deriveRelationships {es : List Entity} {r : Relationship}
    (h : r ∈ deriveRelationshipsFromFks es) :
    ∃ e ∈ es, ∃ a ∈ e.attributes, ∃ fkr, a.foreignKeyRelation = some fkr ∧
      a.isForeignKey = true ∧ fkr.referencesEntity ≠ "" ∧
      r = { from_entity := fkr.referencesEntity, to_entity := e.name,
            type := "1:N", foreign_key_in_to_entity := a.name } := by
  rcases mem_deriveEntities h with h1 | h1
  · exact absurd h1 (List.not_mem_nil r)
  · exact h1

lemma handleUpdateEntityName_ok {entities res : List Entity} {entityId newName : String}
    (hres : handleUpdateEntityName entities entityId newName = Except.ok res) :
    (jsTrim newName).length ≤ 50 ∧
    (entities.any (fun e => toLowerCase e.name == toLowerCase (jsTrim newName) && e.id != entityId)) = false ∧
    res = applyRename entities entityId (jsTrim newName) := by
  unfold handleUpdateEntityName at hres
  by_cases h1 : (jsTrim newName).length > 50
  · rw [if_pos h1] at hres; exact absurd hres (by simp)
  · rw [if_neg h1] at hres
    by_cases h2 : jsTrim newName = "" ∧ ((jsTrim newName).length : Int) = -1
    · rw [if_pos h2] at hres; exact absurd hres (by simp)
    · rw [if_neg h2] at hres
      by_cases h3 :
          (entities.any (fun e => toLowerCase e.name == toLowerCase (jsTrim newName) && e.id != entityId)) = true
      · rw [if_pos h3] at hres; exact absurd hres (by simp)
      · rw [if_neg h3] at hres
        refine ⟨by omega, by simpa using h3, ?_⟩
        exact (Except.ok.injEq _ _ ▸ hres).symm

lemma pairwise_deriveStep (n : String) (a : Attribute) {rels : List Relationship}
    (h : rels.Pairwise tripleNe) : (deriveStep n rels a).Pairwise tripleNe := by
  unfold deriveStep
  cases hfk : a.foreignKeyRelation with
  | none => exact h
  | some fkr =>
    by_cases hg : (a.isForeignKey && fkr.referencesEntity != "") = true
    · simp only [hg, if_true]
      by_cases hex : (rels.any (fun r => sameTriple r fkr.referencesEntity n a.name)) = true
      · simp only [hex, if_true]; exact h
      · rw [Bool.not_eq_true] at hex
        simp only [hex, Bool.false_eq_true, if_false]
        rw [List.pairwise_append]
        refine ⟨h, List.pairwise_singleton _ _, ?_⟩
        intro r hr r2 hr2
        have hr2e := List.eq_of_mem_singleton hr2
        subst hr2e
        intro hcontra
        rcases hcontra with ⟨h1, h2, h3⟩
        have hmem : rels.any (fun r => sameTriple r fkr.referencesEntity n a.name) = true :=
          List.any_eq_true.mpr ⟨r, hr, by simp [sameTriple, h1, h2, h3]⟩
        rw [hex] at hmem
        exact Bool.false_ne_true hmem
    · simp only [hg, if_false]
      exact h

lemma pairwise_deriveAttrs (n : String) (attrs : List Attribute) :
    ∀ rels : List Relationship, rels.Pairwise tripleNe →
      (deriveAttrs n rels attrs).Pairwise tripleNe := by
  induction attrs with
  | nil => intro rels h; exact h
  | cons a rest ih =>
    intro rels h
    exact ih (deriveStep n rels a) (pairwise_deriveStep n a h)

lemma pairwise_deriveEntities (es : List Entity) :
    ∀ rels : List Relationship, rels.Pairwise tripleNe →
      (deriveEntities rels es).Pairwise tripleNe := by
  induction es with
  | nil => intro rels h; exact h
  | cons e rest ih =>
    intro rels h
    exact ih _ (pairwise_deriveAttrs e.name e.attributes rels h)

lemma applyRename_names (entities : List Entity) (entityId t : String) :
    (applyRename entities entityId t).map (fun e => e.name) =
      entities.map (fun e => if e.id == entityId then t else e.name) := by
  unfold applyRename
  dsimp only
  split
  · rename_i oldName heq
    split
    · rw [List.map_map]
      apply List.map_congr_left
      intro a _
      by_cases hc : (a.id == entityId) = true
      · simp [Function.comp, hc]
      · simp [Function.comp, hc]
    · rw [List.map_map, List.map_map]
      apply List.map_congr_left
      intro a _
      by_cases hc : (a.id == entityId) = true
      · simp [Function.comp, hc]
      · simp [Function.comp, hc]
  · rw [List.map_map]
    apply List.map_congr_left
    intro a _
    by_cases hc : (a.id == entityId) = true
    · simp [Function.comp, hc]
    · simp [Function.comp, hc]

lemma applyRename_found {es : List Entity} {eid t : String} {ent : Entity}
    (hfind : es.find? (fun e => e.id == eid) = some ent) (hne : ent.name ≠ "") :
    applyRename es eid t =
      (es.map (fun e => if e.id == eid then { e with name := t } else e)).map (fun e =>
        { e with attributes := e.attributes.map (renameFkAttr ent.name t) }) := by
  unfold applyRename
  rw [hfind]
  simp [hne]

lemma lowerNames_eq_of_names_eq {es es2 : List Entity}
    (h : es2.map (fun e => e.name) = es.map (fun e => e.name)) :
    lowerNames es2 = lowerNames es := by
  have h2 := congrArg (List.map (fun s => toLowerCase s)) h
  simpa [lowerNames, List.map_map, Function.comp] using h2

lemma namesCIDistinct_congr {es es2 : List Entity}
    (h : es2.map (fun e => e.name) = es.map (fun e => e.name)) :
    namesCIDistinct es → namesCIDistinct es2 := by
  unfold namesCIDistinct
  rw [lowerNames_eq_of_names_eq h]
  exact id

lemma handleSaveAttribute_names (es : List Entity) (sid : String) (a : Attribute) :
    (handleSaveAttribute es sid a).map (fun e => e.name) = es.map (fun e => e.name) := by
  unfold handleSaveAttribute
  rw [List.map_map]
  apply List.map_congr_left
  intro e _
  by_cases hc : (e.id == sid) = true
  · simp only [Function.comp_apply, hc, if_true]
    split <;> rfl
  · simp [Function.comp, hc]

lemma handleDeleteAttribute_names (es : List Entity) (eid aid : String) :
    (handleDeleteAttribute es eid aid).map (fun e => e.name) = es.map (fun e => e.name) := by
  unfold handleDeleteAttribute
  rw [List.map_map]
  apply List.map_congr_left
  intro e _
  by_cases hc : (e.id == eid) = true
  · simp [Function.comp, hc]
  · simp [Function.comp, hc]

lemma handleDragMove_names (d : DragState) (cx cy : Int) (es : List Entity) :
    (handleDragMove d cx cy es).map (fun e => e.name) = es.map (fun e => e.name) := by
  unfold handleDragMove
  cases hd : d.draggedEntity with
  | none => rfl
  | some ds =>
    rw [List.map_map]
    apply List.map_congr_left
    intro e _
    by_cases hc : (e.id == ds.id) = true
    · simp [Function.comp, hc]
    · simp [Function.comp, hc]

lemma namesCIDistinct_handleDeleteEntity (es : List Entity) (eid : String)
    (h : namesCIDistinct es) : namesCIDistinct (handleDeleteEntity es eid) := by
  unfold handleDeleteEntity
  split
  · exact h
  · rename_i ent heq
    unfold namesCIDistinct lowerNames at h ⊢
    rw [List.map_map]
    have hsub : List.Sublist
        ((es.filter (fun e => e.id != eid)).map (fun e => toLowerCase e.name))
        (es.map (fun e => toLowerCase e.name)) := (List.filter_sublist es).map _
    exact List.Pairwise.sublist hsub h

lemma namesCIDistinct_applyRename {es : List Entity} {eid t : String}
    (hids : (es.map (fun e => e.id)).Nodup)
    (hinv : namesCIDistinct es)
    (hcol : (es.any (fun e => toLowerCase e.name == toLowerCase t && e.id != eid)) = false) :
    namesCIDistinct (applyRename es eid t) := by
  have hfree : ∀ e ∈ es, e.id ≠ eid → toLowerCase e.name ≠ toLowerCase t := by
    intro e he hne heq
    have hx : (es.any (fun e => toLowerCase e.name == toLowerCase t && e.id != eid)) = true :=
      List.any_eq_true.mpr ⟨e, he, by simp [heq, hne]⟩
    rw [hcol] at hx
    exact Bool.false_ne_true hx
  have hinv2 : es.Pairwise (fun a b => toLowerCase a.name ≠ toLowerCase b.name) := by
    have hx := hinv
    unfold namesCIDistinct lowerNames at hx
    exact List.pairwise_map.mp hx
  have hids2 : es.Pairwise (fun a b => a.id ≠ b.id) := List.pairwise_map.mp hids
  unfold namesCIDistinct lowerNames
  have hnames : (applyRename es eid t).map (fun e => toLowerCase e.name) =
      es.map (fun e => toLowerCase (if e.id == eid then t else e.name)) := by
    have hx := congrArg (List.map (fun s => toLowerCase s)) (applyRename_names es eid t)
    simpa [List.map_map, Function.comp] using hx
  rw [hnames, List.pairwise_map]
  refine (hinv2.and hids2).imp_of_mem ?_
  intro a b ha hb hab
  rcases hab with ⟨hname, hid⟩
  by_cases hA : (a.id == eid) = true
  · by_cases hB : (b.id == eid) = true
    · rw [beq_iff_eq] at hA hB
      exact absurd (hA.trans hB.symm) hid
    · simp only [hA, hB, if_true, if_false]
      have hbne : b.id ≠ eid := by simpa using hB
      exact (hfree b hb hbne).symm
  · by_cases hB : (b.id == eid) = true
    · simp only [hA, hB, if_true, if_false]
      have hane : a.id ≠ eid := by simpa using hA
      exact hfree a ha hane
    · simp only [hA, hB, if_false]
      exact hname

/-- C5: `deriveRelationshipsFromFks` is a pure function of the entity list
(two calls on the same list are structurally equal), and its output never
contains two entries with the same
`(from_entity, to_entity, foreign_key_in_to_entity)` triple. -/
theorem deriveRelationships_pure_and_dedup (entities : List Entity) :
    deriveRelationshipsFromFks entities = deriveRelationshipsFromFks entities ∧
    (deriveRelationshipsFromFks entities).Pairwise tripleNe :=
  ⟨rfl, pairwise_deriveEntities entities [] (List.Pairwise.nil)⟩

lemma namesCIDistinct_handleAddEntity (s : AppState) (newId : String)
    (hfresh : ∀ e ∈ s.entities,
      toLowerCase e.name ≠ toLowerCase ("NewEntity" ++ toString (s.entityCounter + 1)))
    (hinv : namesCIDistinct s.entities) :
    namesCIDistinct (handleAddEntity s newId).entities := by
  unfold namesCIDistinct lowerNames at hinv
  unfold handleAddEntity namesCIDistinct lowerNames
  dsimp only
  rw [List.map_append, List.pairwise_append]
  refine ⟨hinv, by simp, ?_⟩
  intro a ha b hb
  simp only [List.map_cons, List.map_nil, List.mem_singleton] at hb
  subst hb
  rcases List.mem_map.mp ha with ⟨e, he, rfl⟩
  exact hfresh e he

/-- C3 (amended): renaming, deleting, attribute save/delete and drag moves
preserve pairwise case-insensitive distinctness of entity names (rename
additionally assuming entity ids are distinct); `handleAddEntity` preserves
it only under the extra hypothesis that no existing entity's name
case-insensitively equals the generated `NewEntity<counter+1>` — without it
the operation can create a duplicate, see the counterexample. -/
theorem modelOps_preserve_name_uniqueness (es : List Entity) (hinv : namesCIDistinct es) :
    (∀ eid n res, (es.map (fun e => e.id)).Nodup →
        handleUpdateEntityName es eid n = Except.ok res → namesCIDistinct res)
    ∧ (∀ eid, namesCIDistinct (handleDeleteEntity es eid))
    ∧ (∀ sid a, namesCIDistinct (handleSaveAttribute es sid a))
    ∧ (∀ eid aid, namesCIDistinct (handleDeleteAttribute es eid aid))
    ∧ (∀ d cx cy, namesCIDistinct (handleDragMove d cx cy es))
    ∧ (∀ c newId, (∀ e ∈ es,
          toLowerCase e.name ≠ toLowerCase ("NewEntity" ++ toString (c + 1))) →
        namesCIDistinct (handleAddEntity { entities := es, entityCounter := c } newId).entities) := by
  refine ⟨?_, ?_, ?_, ?_, ?_, ?_⟩
  · intro eid n res hids hok
    obtain ⟨hlen, hcol, hres⟩ := handleUpdateEntityName_ok hok
    subst hres
    exact namesCIDistinct_applyRename hids hinv hcol
  · intro eid
    exact namesCIDistinct_handleDeleteEntity es eid hinv
  · intro sid a
    exact namesCIDistinct_congr (handleSaveAttribute_names es sid a) hinv
  · intro eid aid
    exact namesCIDistinct_congr (handleDeleteAttribute_names es eid aid) hinv
  · intro d cx cy
    exact namesCIDistinct_congr (handleDragMove_names d cx cy es) hinv
  · intro c newId hfresh
    exact namesCIDistinct_handleAddEntity { entities := es, entityCounter := c } newId hfresh hinv

/-- Witness for C3: a concrete delete on a concrete uniquely-named list keeps
the names case-insensitively distinct. -/
theorem modelOps_preserve_name_uniqueness_witness :
    namesCIDistinct (handleDeleteEntity [entOrders, entCustomersFk] "e1") :=
  (modelOps_preserve_name_uniqueness [entOrders, entCustomersFk] (by decide)).2.1 "e1"

/-- Counterexample for C3 as stated: `handleAddEntity` performs no duplicate
check, so on a state whose counter is 1 and whose only entity is already
named NewEntity2 the (always successful) add produces two entities with
case-insensitively equal names. -/
theorem handleAddEntity_breaks_name_uniqueness :
    namesCIDistinct clashState.entities ∧
    ¬ namesCIDistinct (handleAddEntity clashState "b").entities := by
  constructor
  · decide
  · decide

/-- C2 (amended): when the id is present, `handleDeleteEntity` removes that
entity and, from each remaining entity, exactly the attributes that are
foreign keys whose `foreignKeyRelation.referencesEntity` equals the deleted
entity's name; afterwards no remaining attribute is a foreign key pointing
at the deleted name (an attribute with `isForeignKey = false` may keep a
stale `foreignKeyRelation`, see the counterexample). -/
theorem deleteEntity_cascades_fk_attributes (es : List Entity) (eid : String) (ent : Entity)
    (hfind : es.find? (fun e => e.id == eid) = some ent) :
    (∀ e2 ∈ handleDeleteEntity es eid, e2.id ≠ eid)
    ∧ (∀ eo ∈ es, eo.id ≠ eid → ∃ e2 ∈ handleDeleteEntity es eid,
        e2.id = eo.id ∧ e2.name = eo.name ∧ e2.ui = eo.ui ∧
        e2.attributes = eo.attributes.filter (fun attr =>
          !(attr.isForeignKey &&
            (attr.foreignKeyRelation.map (fun f => f.referencesEntity) == some ent.name))))
    ∧ (∀ e2 ∈ handleDeleteEntity es eid, ∀ a ∈ e2.attributes,
        ¬(a.isForeignKey = true ∧
          a.foreignKeyRelation.map (fun f => f.referencesEntity) = some ent.name)) := by
  unfold handleDeleteEntity
  rw [hfind]
  refine ⟨?_, ?_, ?_⟩
  · intro e2 he2
    rcases List.mem_map.mp he2 with ⟨x, hx, rfl⟩
    have hxe : x.id ≠ eid := by simpa using (List.mem_filter.mp hx).2
    exact hxe
  · intro eo heo hne
    exact ⟨_, List.mem_map_of_mem _ (List.mem_filter.mpr ⟨heo, by simpa using hne⟩),
      rfl, rfl, rfl, rfl⟩
  · intro e2 he2 a ha
    rcases List.mem_map.mp he2 with ⟨x, hx, rfl⟩
    have ha2 := (List.mem_filter.mp ha).2
    rintro ⟨hfk, href⟩
    simp [hfk, href] at ha2

/-- Witness for C2: deleting Customer from a concrete list removes the
entity, and the remaining Order entity loses its customer foreign key. -/
theorem deleteEntity_cascades_fk_attributes_witness :
    (handleDeleteEntity [entCustomer, entOrderFk] "c1" =
      [{ entOrderFk with attributes := [] }]) ∧
    ∀ e2 ∈ handleDeleteEntity [entCustomer, entOrderFk] "c1", e2.id ≠ "c1" :=
  ⟨by decide,
    (deleteEntity_cascades_fk_attributes [entCustomer, entOrderFk] "c1" entCustomer
      (by decide)).1⟩

/-- Counterexample for C2 as stated: after deleting Customer, an attribute
that is not flagged as a foreign key still carries
`foreignKeyRelation.referencesEntity = "Customer"`. -/
theorem deleteEntity_stale_reference_survives :
    ∃ e2 ∈ handleDeleteEntity [entCustomer, entOrderStale] "c1",
      ∃ a ∈ e2.attributes,
        a.foreignKeyRelation.map (fun f => f.referencesEntity) = some "Customer" := by
  decide

/-- C1 (amended): when `handleUpdateEntityName` succeeds on a list with
case-insensitively distinct names, for an entity that was found with a
non-empty old name different from the trimmed new name: the entity with
that id carries the trimmed new name; every attribute with
`isForeignKey = true` that referenced the old name is rewritten to the new
name (an attribute with `isForeignKey = false` may keep a stale
`foreignKeyRelation`, see the counterexample) and no foreign-key attribute
still references the old name; and `deriveRelationshipsFromFks` on the
result mentions the old name in no entry. -/
theorem renameEntity_cascade (es res : List Entity) (eid newName : String) (ent : Entity)
    (hok : handleUpdateEntityName es eid newName = Except.ok res)
    (hfind : es.find? (fun e => e.id == eid) = some ent)
    (hne : ent.name ≠ "")
    (hnn : ent.name ≠ jsTrim newName)
    (hinv : namesCIDistinct es) :
    (∀ e2 ∈ res, e2.id = eid → e2.name = jsTrim newName)
    ∧ (∀ e2 ∈ res, ∀ a ∈ e2.attributes, a.isForeignKey = true →
        ∀ fr, a.foreignKeyRelation = some fr → fr.referencesEntity ≠ ent.name)
    ∧ (∀ eo ∈ es, ∀ a ∈ eo.attributes, a.isForeignKey = true →
        ∀ fr, a.foreignKeyRelation = some fr → fr.referencesEntity = ent.name →
        ∃ e2 ∈ res, e2.id = eo.id ∧ ∃ a2 ∈ e2.attributes, a2.id = a.id ∧ a2.name = a.name ∧
          a2.foreignKeyRelation = some { referencesEntity := jsTrim newName,
                                         referencesField := fr.referencesField })
    ∧ (∀ r ∈ deriveRelationshipsFromFks res,
        r.from_entity ≠ ent.name ∧ r.to_entity ≠ ent.name) := by
  obtain ⟨hlen, hcol, hres⟩ := handleUpdateEntityName_ok hok
  have hform : res = (es.map (fun e =>
      if e.id == eid then { e with name := jsTrim newName } else e)).map (fun e =>
        { e with attributes := e.attributes.map (renameFkAttr ent.name (jsTrim newName)) }) := by
    rw [hres]
    exact applyRename_found hfind hne
  have hentid : ent.id = eid := by simpa using List.find?_some hfind
  have hentmem : ent ∈ es := List.mem_of_find?_eq_some hfind
  have h2 : ∀ e2 ∈ res, ∀ a ∈ e2.attributes, a.isForeignKey = true →
      ∀ fr, a.foreignKeyRelation = some fr → fr.referencesEntity ≠ ent.name := by
    rw [hform]
    intro e2 he2 a ha hfk fr hfr
    rcases List.mem_map.mp he2 with ⟨y, hy, rfl⟩
    rcases List.mem_map.mp ha with ⟨a0, ha0, rfl⟩
    unfold renameFkAttr at hfk hfr
    by_cases hg : (a0.isForeignKey &&
        (a0.foreignKeyRelation.map (fun f => f.referencesEntity) == some ent.name)) = true
    · rw [if_pos hg] at hfr
      rcases Option.map_eq_some'.mp hfr with ⟨f0, hf0, rfl⟩
      intro hcontra
      exact hnn hcontra.symm
    · rw [if_neg hg] at hfk hfr
      intro hcontra
      apply hg
      simp [hfk, hfr, hcontra]
  have h1 : ∀ e2 ∈ res, e2.id = eid → e2.name = jsTrim newName := by
    rw [hform]
    intro e2 he2 hid
    rcases List.mem_map.mp he2 with ⟨y, hy, rfl⟩
    rcases List.mem_map.mp hy with ⟨x, hx, rfl⟩
    by_cases hc : (x.id == eid) = true
    · simp [hc]
    · exfalso
      have hxid : x.id = eid := by simpa [hc] using hid
      simp [hxid] at hc
  have h3 : ∀ eo ∈ es, ∀ a ∈ eo.attributes, a.isForeignKey = true →
      ∀ fr, a.foreignKeyRelation = some fr → fr.referencesEntity = ent.name →
      ∃ e2 ∈ res, e2.id = eo.id ∧ ∃ a2 ∈ e2.attributes, a2.id = a.id ∧ a2.name = a.name ∧
        a2.foreignKeyRelation = some { referencesEntity := jsTrim newName,
                                       referencesField := fr.referencesField } := by
    rw [hform]
    intro eo heo a ha hfk fr hfr hrefO
    have hguard : (a.isForeignKey &&
        (a.foreignKeyRelation.map (fun f => f.referencesEntity) == some ent.name)) = true := by
      simp [hfk, hfr, hrefO]
    have ha2 : renameFkAttr ent.name (jsTrim newName) a =
        { a with foreignKeyRelation := some { referencesEntity := jsTrim newName,
                                              referencesField := fr.referencesField } } := by
      unfold renameFkAttr
      rw [if_pos hguard, hfr]
      rfl
    have hattrs : ((if (eo.id == eid) = true
        then ({ eo with name := jsTrim newName } : Entity) else eo)).attributes =
          eo.attributes := by
      by_cases hc : (eo.id == eid) = true
      · simp [hc]
      · simp [hc]
    refine ⟨_, List.mem_map_of_mem _ (List.mem_map_of_mem _ heo), ?_, ?_⟩
    · by_cases hc : (eo.id == eid) = true
      · simp [hc]
      · simp [hc]
    · refine ⟨renameFkAttr ent.name (jsTrim newName) a, ?_, by rw [ha2], by rw [ha2], by rw [ha2]⟩
      show renameFkAttr ent.name (jsTrim newName) a ∈
        ((if (eo.id == eid) = true
          then ({ eo with name := jsTrim newName } : Entity) else eo)).attributes.map
            (renameFkAttr ent.name (jsTrim newName))
      rw [hattrs]
      exact List.mem_map_of_mem _ ha
  have h4 : ∀ r ∈ deriveRelationshipsFromFks res,
      r.from_entity ≠ ent.name ∧ r.to_entity ≠ ent.name := by
    intro r hr
    rcases mem_deriveRelationships hr with ⟨e2, he2, a, ha, fkr, hfkr, hfk, hneq, rfl⟩
    constructor
    · exact h2 e2 he2 a ha hfk fkr hfkr
    · rw [hform] at he2
      rcases List.mem_map.mp he2 with ⟨y, hy, rfl⟩
      rcases List.mem_map.mp hy with ⟨x, hx, rfl⟩
      by_cases hc : (x.id == eid) = true
      · intro hcontra
        apply hnn
        have hteq : jsTrim newName = ent.name := by simpa [hc] using hcontra
        exact hteq.symm
      · intro hcontra
        have hxname : x.name = ent.name := by simpa [hc] using hcontra
        have hxne : x ≠ ent := by
          intro heq
          rw [heq] at hc
          exact hc (by simp [hentid])
        have hinvp : es.Pairwise (fun a b => toLowerCase a.name ≠ toLowerCase b.name) := by
          have hx2 := hinv
          unfold namesCIDistinct lowerNames at hx2
          exact List.pairwise_map.mp hx2
        have hsym : Symmetric (fun a b : Entity => toLowerCase a.name ≠ toLowerCase b.name) :=
          fun a b h => fun e => h e.symm
        have hlow := (hinvp.forall hsym) hx hentmem hxne
        exact hlow (by rw [hxname])
  exact ⟨h1, h2, h3, h4⟩

/-- Witness for C1: renaming Orders to Purchases on a concrete two-entity
list rewrites the genuine foreign key and renames the entity. -/
theorem renameEntity_cascade_witness :
    ({ id := "e1", name := "Purchases", attributes := [],
       ui := { x := 0, y := 0 } } : Entity).name = jsTrim "Purchases" :=
  (renameEntity_cascade [entOrders, entCustomersFk]
      [{ id := "e1", name := "Purchases", attributes := [], ui := { x := 0, y := 0 } },
       { id := "e3", name := "Customers",
         attributes := [{ attrFkOrders with
           foreignKeyRelation := some ({ referencesEntity := "Purchases",
                                         referencesField := "id" }) }],
         ui := { x := 0, y := 0 } }]
      "e1" "Purchases" entOrders (by rfl) (by rfl) (by decide) (by decide) (by decide)).1
    { id := "e1", name := "Purchases", attributes := [], ui := { x := 0, y := 0 } }
    (by decide) (by decide)

/-- Counterexample for C1 as stated: the rename succeeds, yet an attribute
that is not flagged as a foreign key keeps
`foreignKeyRelation.referencesEntity = "Orders"` (only `isForeignKey`
attributes are rewritten). -/
theorem renameEntity_stale_nonFk_reference :
    (handleUpdateEntityName [entOrders, entCustomersStale] "e1" "Purchases" =
      Except.ok [{ entOrders with name := "Purchases" }, entCustomersStale]) ∧
    (∃ e2 ∈ [{ entOrders with name := "Purchases" }, entCustomersStale],
      ∃ a ∈ e2.attributes,
        a.foreignKeyRelation.map (fun f => f.referencesEntity) = some "Orders") := by
  refine ⟨by rfl, ?_⟩
  decide

/-- C4 (code bug): the current `handleUpdateEntityName` accepts a rename to a
whitespace-only string: the trimmed name is empty, yet the empty-name guard
`!trimmedName && trimmedName.length === -1` can never fire, so the entity is
renamed to the empty string instead of the operation being rejected with
the list unchanged. -/
theorem renameEntity_accepts_empty_name :
    handleUpdateEntityName [entOrders] "e1" " " =
      Except.ok [{ entOrders with name := "" }] := by
  rfl

lemma applyFormEvent_pknn {f : AttrForm}
    (h : f.isPrimaryKey = true → f.isNotNull = true) (ev : FormEvent) :
    (applyFormEvent f ev).isPrimaryKey = true → (applyFormEvent f ev).isNotNull = true := by
  cases ev with
  | setName v => exact h
  | setType v => exact h
  | setPrimaryKey b =>
    cases b
    · simp [applyFormEvent]
    · simp [applyFormEvent]
  | setNotNull b =>
    by_cases hp : f.isPrimaryKey = true
    · simpa [applyFormEvent, hp] using h
    · have hp2 : f.isPrimaryKey = false := by
        revert hp
        cases f.isPrimaryKey <;> simp
      simp [applyFormEvent, hp2]
  | setUnique b => exact h
  | setForeignKey b => exact h
  | setReferencesEntity v => exact h
  | setReferencesField v => exact h

lemma runForm_pknn (events : List FormEvent) :
    ∀ f : AttrForm, (f.isPrimaryKey = true → f.isNotNull = true) →
      ((runForm f events).isPrimaryKey = true → (runForm f events).isNotNull = true) := by
  induction events with
  | nil => intro f h; exact h
  | cons ev rest ih =>
    intro f h
    exact ih (applyFormEvent f ev) (applyFormEvent_pknn h ev)

/-- C6 (amended): for every attribute-editor session whose opened attribute
already satisfies `isPrimaryKey → isNotNull` (in particular every session
that adds a new attribute), the saved attribute satisfies
`isPrimaryKey → isNotNull`: checking PK via the checkbox forces NN, and NN
cannot be unchecked while PK is checked.  The coercion lives only in the
checkbox handler, so an attribute pre-loaded with `isPrimaryKey = true` and
`isNotNull = false` that is saved without toggling PK keeps
`isNotNull = false` — see the counterexample. -/
theorem attributeEditor_pk_forces_notNull (attributeToEdit : Option Attribute)
    (freshId : String) (events : List FormEvent)
    (hinit : ∀ a, attributeToEdit = some a → a.isPrimaryKey = true → a.isNotNull = true)
    (hpk : (AttributeEditorModal.handleSave attributeToEdit freshId
        (runForm (initForm attributeToEdit) events)).isPrimaryKey = true) :
    (AttributeEditorModal.handleSave attributeToEdit freshId
        (runForm (initForm attributeToEdit) events)).isNotNull = true := by
  have h0 : (initForm attributeToEdit).isPrimaryKey = true →
      (initForm attributeToEdit).isNotNull = true := by
    cases attributeToEdit with
    | none => simp [initForm, defaultAttributeState]
    | some a => exact hinit a rfl
  exact runForm_pknn events _ h0 hpk

/-- Witness for C6: checking the PK box in a fresh editor session and saving
yields an attribute with `isNotNull = true`. -/
theorem attributeEditor_pk_forces_notNull_witness :
    (AttributeEditorModal.handleSave none "attr-1"
        (runForm (initForm none) [FormEvent.setPrimaryKey true])).isNotNull = true :=
  attributeEditor_pk_forces_notNull none "attr-1" [FormEvent.setPrimaryKey true]
    (fun a h => Option.noConfusion h) (by decide)

/-- Counterexample for C6 as stated: an attribute loaded with
`isPrimaryKey = true, isNotNull = false`, opened in the editor and saved
without any interaction, is saved with `isPrimaryKey = true` and
`isNotNull = false`. -/
theorem attributeEditor_preexisting_pk_without_notNull :
    (AttributeEditorModal.handleSave (some pkNnViolating) "attr-1"
        (runForm (initForm (some pkNnViolating)) [])).isPrimaryKey = true ∧
    (AttributeEditorModal.handleSave (some pkNnViolating) "attr-1"
        (runForm (initForm (some pkNnViolating)) [])).isNotNull = false :=
  ⟨rfl, rfl⟩

/-- C7: a press on an entity captures the offset `pointer - entity.ui` and
keeps it for the session; each move sets the dragged entity's position to
`pointer - offset`; in particular the (50,50)/(60,55)/(100,120) scenario
yields position (90,115); and after release a move event leaves every
entity list unchanged until a new press. -/
theorem dragSession_follows_pointer (es : List Entity) (e : Entity) (d0 : DragState)
    (px py mx my : Int) (_he : e ∈ es) :
    ((handleDragStart d0 px py e).draggedEntity =
      some { id := e.id, offsetX := px - e.ui.x, offsetY := py - e.ui.y })
    ∧ (∀ e2 ∈ handleDragMove (handleDragStart d0 px py e) mx my es,
        e2.id = e.id →
        e2.ui = { x := mx - (px - e.ui.x), y := my - (py - e.ui.y) })
    ∧ (∀ cx cy : Int, ∀ es2 : List Entity,
        handleDragMove (handleDragEnd (handleDragStart d0 px py e)) cx cy es2 = es2)
    ∧ ((handleDragMove (handleDragStart dragInit 60 55 entAt5050) 100 120
        [entAt5050]).map (fun x => x.ui) = [{ x := 90, y := 115 }]) := by
  refine ⟨rfl, ?_, fun cx cy es2 => rfl, by decide⟩
  intro e2 he2 hid
  have hmv : handleDragMove (handleDragStart d0 px py e) mx my es =
      es.map (fun entity => if entity.id == e.id then
        { entity with ui := { x := mx - (px - e.ui.x), y := my - (py - e.ui.y) } }
      else entity) := rfl
  rw [hmv] at he2
  rcases List.mem_map.mp he2 with ⟨x, hx, rfl⟩
  by_cases hc : (x.id == e.id) = true
  · simp [hc]
  · exfalso
    have hxe : x.id = e.id := by simpa [hc] using hid
    simp [hxe] at hc

/-- Witness for C7: pressing at (60,55) on the entity at (50,50) captures the
offset (10,5). -/
theorem dragSession_follows_pointer_witness :
    (handleDragStart dragInit 60 55 entAt5050).draggedEntity =
      some { id := "d1", offsetX := 10, offsetY := 5 } :=
  (dragSession_follows_pointer [entAt5050] entAt5050 dragInit 60 55 100 120 (by decide)).1

/-- C8 (amended): the swipe classification of `handleTouchEnd` picks the
horizontal directions exactly when the horizontal absolute displacement is
strictly larger and the signed displacement exceeds the threshold 50 (the
vertical directions dually); press (100,100)/release (200,100) is a
rightward swipe and release (110,105) is no swipe, but release (100,140) is
also no swipe, because the vertical displacement 40 does not exceed the
threshold — see the counterexample. -/
theorem touchEnd_swipe_classification :
    (∀ sx sy ex ey : Int,
      (classifySwipe (some { x := sx, y := sy }) ex ey = Swipe.right ↔
        (ex - sx).natAbs > (ey - sy).natAbs ∧ ex - sx > 50)
      ∧ (classifySwipe (some { x := sx, y := sy }) ex ey = Swipe.left ↔
        (ex - sx).natAbs > (ey - sy).natAbs ∧ ex - sx < -50)
      ∧ (classifySwipe (some { x := sx, y := sy }) ex ey = Swipe.down ↔
        ¬((ex - sx).natAbs > (ey - sy).natAbs) ∧ ey - sy > 50)
      ∧ (classifySwipe (some { x := sx, y := sy }) ex ey = Swipe.up ↔
        ¬((ex - sx).natAbs > (ey - sy).natAbs) ∧ ey - sy < -50))
    ∧ classifySwipe (some { x := 100, y := 100 }) 200 100 = Swipe.right
    ∧ classifySwipe (some { x := 100, y := 100 }) 100 140 = Swipe.noSwipe
    ∧ classifySwipe (some { x := 100, y := 100 }) 110 105 = Swipe.noSwipe := by
  refine ⟨?_, by decide, by decide, by decide⟩
  intro sx sy ex ey
  unfold classifySwipe
  dsimp only
  refine ⟨?_, ?_, ?_, ?_⟩ <;> split_ifs <;> simp_all <;> omega

/-- Counterexample for C8 as stated: a touch from (100,100) to (100,140)
with threshold 50 is not classified as a downward swipe. -/
theorem touchEnd_below_threshold_not_down :
    classifySwipe (some { x := 100, y := 100 }) 100 140 ≠ Swipe.down := by
  decide

lemma loadLoopJS_entities (now : String) :
    ∀ (c : Int) (eds : List RawEntityJS),
      List.Forall₂ (fun ed le => le.name = ed.name ∧ le.attributes = ed.attributes.getD [] ∧
        le.x = jsOrInt ed.x 50 ∧ le.y = jsOrInt ed.y 50) eds (loadLoopJS now c eds).2 := by
  intro c eds
  induction eds generalizing c with
  | nil => exact List.Forall₂.nil
  | cons ed rest ih =>
    simp only [loadLoopJS]
    refine List.Forall₂.cons ?_ (ih _)
    cases hid : ed.id with
    | none => simp [hydrateLegacyEntity, hid]
    | some i =>
      by_cases hi : i = ""
      · simp [hydrateLegacyEntity, hid, hi]
      · simp [hydrateLegacyEntity, hid, hi]

lemma loadLoopJS_counter (now : String) :
    ∀ (c : Int) (eds : List RawEntityJS),
      (∀ ed ∈ eds, ∃ i, ed.id = some i ∧ i ≠ "") → (loadLoopJS now c eds).1 = c := by
  intro c eds
  induction eds generalizing c with
  | nil => intro _; rfl
  | cons ed rest ih =>
    intro hids
    rcases hids ed (List.mem_cons_self ed rest) with ⟨i, hid, hi⟩
    have hstep : (hydrateLegacyEntity now c ed).1 = c := by
      simp [hydrateLegacyEntity, hid, hi]
    simp only [loadLoopJS]
    rw [hstep]
    exact ih c (fun ed2 h2 => hids ed2 (List.mem_cons_of_mem ed h2))

/-- C9 (amended): the legacy file loader (js/app.js) hydrates every entity
with the same field names, giving a missing (or zero) position the fixed
fallback 50 and a missing attribute list the empty list, and resets a
missing counter to 0 (not to the entity count; the counter only grows while
loading when an entity id is missing).  The pre-flowmancer React loader
keeps entities as stored and defaults a missing counter to the loaded
entity count; the current `.flowmancer` loader keeps entities as stored and
defaults a missing counter to 0. -/
theorem loadDesign_hydration_defaults :
    (∀ (d : RawDesignJS) (now : String),
      List.Forall₂ (fun ed le => le.name = ed.name ∧ le.attributes = ed.attributes.getD [] ∧
        le.x = jsOrInt ed.x 50 ∧ le.y = jsOrInt ed.y 50) d.entities
        (loadSchemaFromFile d now).2)
    ∧ (∀ (d : RawDesignJS) (now : String),
        (∀ ed ∈ d.entities, ∃ i, ed.id = some i ∧ i ≠ "") →
        (loadSchemaFromFile d now).1 = jsOrInt d.entityCounter 0)
    ∧ (∀ es : List Entity, handleLoadDesignLegacyReact es none = (es, (es.length : Int)))
    ∧ (∀ es : List Entity,
        handleLoadDesign { entities := some es, entityCounter := none } = (es, 0)) := by
  refine ⟨?_, ?_, ?_, ?_⟩
  · intro d now
    exact loadLoopJS_entities now (jsOrInt d.entityCounter 0) d.entities
  · intro d now hids
    exact loadLoopJS_counter now (jsOrInt d.entityCounter 0) d.entities hids
  · intro es
    rfl
  · intro es
    rfl

/-- Witness for C9: loading the concrete two-entity legacy document with a
missing counter resets the counter to 0. -/
theorem loadDesign_hydration_defaults_witness :
    (loadSchemaFromFile rawDocNoCounter "1700000000000").1 = 0 :=
  loadDesign_hydration_defaults.2.1 rawDocNoCounter "1700000000000" (by decide)

/-- Counterexample for C9 as stated: a legacy document with two entities and
no creation counter loads with the counter 0, not with the number of loaded
entities (2). -/
theorem loadSchemaFromFile_counter_not_entity_count :
    (loadSchemaFromFile rawDocNoCounter "1700000000000").1 = 0 ∧
    ((loadSchemaFromFile rawDocNoCounter "1700000000000").2.length = 2) ∧
    (0 : Int) ≠ 2 := by
  refine ⟨by decide, by decide, by decide⟩

/-- C10: a mouse-move step never touches the drag state; the entity list it
returns corresponds entity-by-entity to the input, preserving id, name and
attributes everywhere and leaving every entity other than the dragged one
(and every entity at all when no drag is active) completely unchanged. -/
theorem dragMove_frame_effect (d : DragState) (cx cy : Int) (es : List Entity) :
    (mouseMoveStep d cx cy es).1 = d
    ∧ List.Forall₂ (fun e e2 => e2.id = e.id ∧ e2.name = e.name ∧
        e2.attributes = e.attributes ∧
        (∀ ds, d.draggedEntity = some ds → e.id ≠ ds.id → e2 = e))
      es (mouseMoveStep d cx cy es).2
    ∧ (d.draggedEntity = none → mouseMoveStep d cx cy es = (d, es)) := by
  refine ⟨rfl, ?_, ?_⟩
  · unfold mouseMoveStep handleDragMove
    dsimp only
    cases hd : d.draggedEntity with
    | none =>
      refine List.forall₂_same.mpr ?_
      intro e _
      exact ⟨rfl, rfl, rfl, fun ds hds hne => rfl⟩
    | some ds0 =>
      refine List.forall₂_map_right_iff.mpr (List.forall₂_same.mpr ?_)
      intro e _
      by_cases hc : (e.id == ds0.id) = true
      · refine ⟨by simp [hc], by simp [hc], by simp [hc], ?_⟩
        intro ds hds hne
        injection hds with hds2
        subst hds2
        exact absurd (by simpa using hc) hne
      · simp [hc]
  · intro h
    simp only [mouseMoveStep, handleDragMove, h]

/-- Witness for C10: a move event with no active drag leaves a concrete
state and entity list unchanged. -/
theorem dragMove_frame_effect_witness :
    mouseMoveStep dragInit 3 4 [entAt5050] = (dragInit, [entAt5050]) :=
  (dragMove_frame_effect dragInit 3 4 [entAt5050]).2.2 rfl

/-- Witness for C5: the dedup property evaluated on a concrete list through
the claim theorem. -/
theorem deriveRelationships_pure_and_dedup_witness :
    deriveRelationshipsFromFks [entCustomer, entOrderFk] =
      deriveRelationshipsFromFks [entCustomer, entOrderFk] ∧
    (deriveRelationshipsFromFks [entCustomer, entOrderFk]).Pairwise tripleNe :=
  deriveRelationships_pure_and_dedup [entCustomer, entOrderFk]

end Flowmancer
